import Mathlib

/-!
Verification of the adaptive media-resolution and rendering pipeline of the
A.EDUCACAO frontend.  The definitions below are a shallow embedding of the
TypeScript sources:

* `src/frontend/src/utils/mediaUtils.ts`            (`validateMediaUrl`, `getFileType`)
* `src/frontend/src/components/content/AdaptiveResponse.tsx` (`extractFilePath`)
* `src/frontend/src/components/content/ExerciseContent.tsx`  (`fetchExercises`, `parseTextExercises`)
* the `InteractivePrompt` assessment component               (`handleAnswer`, `completeAssessment`)

JavaScript strings are modelled as Lean `String`s (lists of Unicode scalar
values).  `String.toLowerCase()` is modelled by ASCII lowercasing
(`Char.toLower`); every string literal that the embedded code compares
case-insensitively is ASCII apart from already-lowercase accented letters, so
this agrees with JavaScript on all inputs considered in the theorems below.
JavaScript regular expressions are translated pattern by pattern into
equivalent deterministic scanning functions; the reasoning behind each
translation (greedy/lazy quantifier behaviour, backtracking that provably
cannot change the result) is noted at the definition.
-/

namespace AEduc

/-! ### Basic string machinery shared by all components -/

/-- Characters matched by the JavaScript regex metacharacter `.`
(without the `s` flag): everything except line terminators. -/
def isRegexDot (c : Char) : Bool :=
  c ≠ '\n' && c ≠ '\r' && c ≠ '\u2028' && c ≠ '\u2029'

/-- Characters matched by the JavaScript regex class `\s`
(the common subset; exotic Unicode spaces do not occur in the inputs
considered here). -/
def isJsWs (c : Char) : Bool :=
  c = ' ' || c = '\t' || c = '\n' || c = '\r' || c = '\x0b' || c = '\x0c' ||
  c = '\u00a0' || c = '\u2028' || c = '\u2029' || c = '\ufeff'

/-- ASCII lowercasing, the model of `String.prototype.toLowerCase`. -/
def asciiLower (s : String) : String := ⟨s.data.map Char.toLower⟩

/-- Model of `String.prototype.startsWith`. -/
def startsWithStr (pre s : String) : Bool := pre.data.isPrefixOf s.data

/-- Substring test on character lists, the model of
`String.prototype.includes`. -/
def listSub (pat : List Char) : List Char → Bool
  | [] => pat.isEmpty
  | c :: rest => pat.isPrefixOf (c :: rest) || listSub pat rest

/-- Model of `String.prototype.includes`. -/
def containsStr (s pat : String) : Bool := listSub pat.data s.data

/-- Splitter used to model `String.prototype.split(sep)` for a non-empty
separator: left-to-right scan, non-overlapping occurrences.  A positive
`skip` count means that many characters of a just-matched separator remain
to be consumed.  Structural recursion on the scanned list keeps the
function kernel-reducible. -/
def splitOnGo (sep : List Char) : List Char → List Char → Nat → List (List Char)
  | [], acc, _ => [acc.reverse]
  | c :: rest, acc, skip =>
    match skip with
    | k + 1 => splitOnGo sep rest acc k
    | 0 =>
      if sep.isPrefixOf (c :: rest) then
        acc.reverse :: splitOnGo sep rest [] (sep.length - 1)
      else
        splitOnGo sep rest (c :: acc) 0

/-- Model of `String.prototype.split(sep)` for a non-empty separator. -/
def splitOnStr (sep s : String) : List String :=
  match sep.data with
  | [] => [s]
  | c0 :: cs => (splitOnGo (c0 :: cs) s.data [] 0).map (⟨·⟩)

/-- Model of `path.toLowerCase().split('.').pop() || ''` from
`mediaUtils.ts`: the text after the last dot of the lowercased string
(the whole lowercased string when it has no dot, `''` for a trailing dot). -/
def lastExt (s : String) : String :=
  (splitOnStr "." (asciiLower s)).getLastD ""

/-- Model of `cleanPath.replace(/^\/+/, '')`: drop leading slashes. -/
def stripLeadingSlashes (s : String) : String := ⟨s.data.dropWhile (· = '/')⟩

/-! ### `mediaUtils.ts` -/

def videoExts : List String := ["mp4", "avi", "mov", "mkv", "webm"]
def audioExts : List String := ["mp3", "wav", "ogg", "aac", "m4a"]
def imageExts : List String := ["jpg", "jpeg", "png", "gif", "svg", "webp"]
def textExts : List String := ["txt", "md", "pdf"]
def mediaDirs : List String := ["text/", "audio/", "videos/", "images/", "transcripts/"]

/-- The marker-and-slash stripping stage of `validateMediaUrl` (lines
26-32 of `mediaUtils.ts`): the text after a contained `/processed_data/`
marker (`cleanPath.split('/processed_data/')[1]`, `''` when the marker is
a suffix), then leading slashes removed. -/
def mediaStripped (url : String) : String :=
  stripLeadingSlashes
    (if containsStr url "/processed_data/" then
      ((splitOnStr "/processed_data/" url).get? 1).getD ""
    else url)

/-- Subdirectory inference of `validateMediaUrl` (the `cleanPath`
computation of `mediaUtils.ts` after the early returns): strip the text up
to a contained `/processed_data/` marker and leading slashes, then, when no
known media directory is already present, infer one from the lowercase
extension. -/
def mediaCleanPath (url : String) : String :=
  let cleanPath :=
    if containsStr url "/processed_data/" then
      ((splitOnStr "/processed_data/" url).get? 1).getD ""
    else url
  let cleanPath := stripLeadingSlashes cleanPath
  let hasMediaDir := mediaDirs.any (fun d => startsWithStr d cleanPath)
  if hasMediaDir then cleanPath else
  let extension := lastExt cleanPath
  if videoExts.contains extension then "videos/" ++ cleanPath
  else if audioExts.contains extension then "audio/" ++ cleanPath
  else if imageExts.contains extension then "images/" ++ cleanPath
  else if textExts.contains extension then
    -- the source's exercise-name check has two identical branches; kept as written
    if containsStr (asciiLower cleanPath) "exercício" ||
       containsStr (asciiLower cleanPath) "exercicio" ||
       containsStr (asciiLower cleanPath) "exercise" then
      "text/" ++ cleanPath
    else
      "text/" ++ cleanPath
  else cleanPath

/-- Embedding of `validateMediaUrl` from `mediaUtils.ts`.  The API base URL
(`process.env.NEXT_PUBLIC_API_URL || 'http://localhost:8000'`) is passed as
the explicit parameter `apiUrl`; the `cleanPath` computation is factored
into `mediaCleanPath`. -/
def validateMediaUrl (apiUrl url : String) : String :=
  if url = "" then "" else
  if startsWithStr "http://" url || startsWithStr "https://" url then url else
  if startsWithStr "/processed_data/" url then apiUrl ++ url else
  apiUrl ++ "/processed_data/" ++ mediaCleanPath url

inductive FileType where
  | video | audio | image | markdown | exercises | unknown
deriving DecidableEq, Repr

/-- Embedding of `getFileType` from `mediaUtils.ts`. -/
def getFileType (filePath : String) : FileType :=
  if filePath = "" then .unknown else
  let extension := lastExt filePath
  let path := asciiLower filePath
  if videoExts.contains extension || containsStr path "/videos/" then .video
  else if audioExts.contains extension || containsStr path "/audio/" then .audio
  else if imageExts.contains extension || containsStr path "/images/" then .image
  else if ["json"].contains extension || containsStr path "exercícios" ||
          containsStr path "exercicios" then .exercises
  else if (["md", "txt", "pdf"] : List String).contains extension ||
          containsStr path "/text/" then .markdown
  else .unknown

/-! ### `AdaptiveResponse.tsx`: the Response Extractor (`extractFilePath`)

Each JavaScript regular expression of `extractFilePath` is translated into a
deterministic matcher `List Char → Option (List Char)` which, applied at one
position of the text, returns the text of capture group 1 when the whole
pattern matches starting there.  `scanL` tries every position from the left,
which is exactly the behaviour of `String.prototype.match` for a non-global,
non-anchored pattern. -/

/-- Leftmost-position scan of a single-position matcher. -/
def scanL (m : List Char → Option (List Char)) : List Char → Option (List Char)
  | [] => m []
  | c :: rest => (m (c :: rest)).orElse (fun _ => scanL m rest)

def openMarker : List Char := "<!-- file_path: ".data
def closeMarker : List Char := " -->".data

/-- Content of the lazy group `(.*?)` of `/<!-- file_path: (.*?) -->/` up to
the first ` -->`; `none` when no close marker is reachable through
`.`-matchable characters. -/
def commentClose : List Char → Option (List Char)
  | [] => none
  | c :: rest =>
    if closeMarker.isPrefixOf (c :: rest) then some []
    else if isRegexDot c then (commentClose rest).map (c :: ·) else none

/-- The comment-marker pattern applied at one position. -/
def commentAt (l : List Char) : Option (List Char) :=
  if openMarker.isPrefixOf l then commentClose (l.drop openMarker.length) else none

/-- Model of `text.match(/<!-- file_path: (.*?) -->/)`, group 1. -/
def findCommentPath (s : String) : Option String :=
  (scanL commentAt s.data).map (⟨·⟩)

/-- Case-insensitive literal prefix test (`pat` is given lowercase). -/
def ciPrefix (pat l : List Char) : Bool :=
  (l.take pat.length).map Char.toLower == pat

/-- `[^\s\n]` (the `\n` in the class is redundant: `\s` contains it). -/
def isTokenChar (c : Char) : Bool := !(isJsWs c)

/-- `[^"\s\n]` from the bare path patterns. -/
def isPathChar (c : Char) : Bool := !(isJsWs c) && c ≠ '"'

def isAlnumAscii (c : Char) : Bool := c.isAlpha || c.isDigit

/-- First alternative `\/[^\s\n]+` of the labeled-line pattern. -/
def fileTokAbs (l : List Char) : Option (List Char) :=
  match l with
  | '/' :: rest =>
    let r := rest.takeWhile isTokenChar
    if r.isEmpty then none else some ('/' :: r)
  | _ => none

/-- Second alternative `[a-zA-Z]:[\\\/][^\s\n]+`. -/
def fileTokDrive (l : List Char) : Option (List Char) :=
  match l with
  | a :: ':' :: s :: rest =>
    if a.isAlpha && (s = '\\' || s = '/') then
      let r := rest.takeWhile isTokenChar
      if r.isEmpty then none else some (a :: ':' :: s :: r)
    else none
  | _ => none

/-- Backtracking of `<class>+\.<ext>`: the greedy class consumes as much as
possible and backs off until a literal dot followed by a matching extension
is found; the candidate dot index `j + 1` descends (largest first), with at
least one class character before the dot. -/
def searchDotFrom (R : List Char) (extOf : List Char → Option (List Char)) : Nat → Option (List Char)
  | 0 => none
  | j + 1 =>
    (if R.get? (j + 1) = some '.' then
       (extOf (R.drop (j + 2))).map (fun e => R.take (j + 1) ++ '.' :: e)
     else none).orElse
    (fun _ => searchDotFrom R extOf j)

/-- Third alternative `[^\s\n]+\.[a-zA-Z0-9]{2,4}` (greedy `{2,4}`). -/
def fileTokRel (l : List Char) : Option (List Char) :=
  let R := l.takeWhile isTokenChar
  searchDotFrom R (fun rest =>
    let run := (rest.takeWhile isAlnumAscii).take 4
    if run.length ≥ 2 then some run else none) (R.length - 1)

/-- The pattern `/(?:Arquivo|File):\s*(...)/i` applied at one position; the
greedy `\s*` is maximal munch (no alternative of the group can start with a
whitespace character, so backtracking it can never help). -/
def labeledAt (l : List Char) : Option (List Char) :=
  let afterLabel : Option (List Char) :=
    if ciPrefix "arquivo:".data l then some (l.drop 8)
    else if ciPrefix "file:".data l then some (l.drop 5)
    else none
  afterLabel.bind fun r =>
    let r2 := r.dropWhile isJsWs
    (fileTokAbs r2).orElse fun _ =>
    (fileTokDrive r2).orElse fun _ => fileTokRel r2

/-- Model of the labeled-line match (`Arquivo:`/`File:`), group 1. -/
def findLabeledLine (s : String) : Option String :=
  (scanL labeledAt s.data).map (⟨·⟩)

/-- Lazy `(.*?\.(?:ext₁|ext₂|…))`: shortest `.`-run ending with a dot and
one of the extensions (tried in pattern order, case-insensitively); the
capture keeps the original text. -/
def lazyDotExt (exts : List (List Char)) : List Char → Option (List Char)
  | [] => none
  | c :: rest =>
    (if c = '.' then
       (exts.find? (fun e => ciPrefix e rest)).map (fun e => '.' :: rest.take e.length)
     else none).orElse
    (fun _ => if isRegexDot c then (lazyDotExt exts rest).map (c :: ·) else none)

/-- Pattern shape `\(?(?:L₁|L₂):\s*(.*?\.(?:exts))\)?/i` (the trailing
`\)?` does not affect group 1). -/
def shapeA (labels exts : List (List Char)) (l : List Char) : Option (List Char) :=
  let l1 := match l with | '(' :: r => r | _ => l
  match labels.find? (fun lab => ciPrefix lab l1) with
  | some lab => lazyDotExt exts ((l1.drop lab.length).dropWhile isJsWs)
  | none => none

/-- Pattern shape `Arquivo[^:]*:\s*(.*?\.(?:exts))/i`; `[^:]*` cannot cross
a colon, so it deterministically reaches the first colon. -/
def shapeB (exts : List (List Char)) (l : List Char) : Option (List Char) :=
  if ciPrefix "arquivo".data l then
    let r := l.drop 7
    let pre := r.takeWhile (· ≠ ':')
    match r.drop pre.length with
    | ':' :: r2 => lazyDotExt exts (r2.dropWhile isJsWs)
    | _ => none
  else none

/-- Pattern shape `(\/processed_data\/<sub>\/[^"\s\n]+)/i`: maximal munch,
whole match captured with its original text. -/
def shapeC (pre : List Char) (l : List Char) : Option (List Char) :=
  if ciPrefix pre l then
    let run := (l.drop pre.length).takeWhile isPathChar
    if run.isEmpty then none else some (l.take pre.length ++ run)
  else none

/-- Pattern shape `(<sub>\/[^"\s\n]+\.(?:exts))/i`. -/
def shapeD (pre : List Char) (exts : List (List Char)) (l : List Char) : Option (List Char) :=
  if ciPrefix pre l then
    let R := (l.drop pre.length).takeWhile isPathChar
    (searchDotFrom R
        (fun rest => (exts.find? (fun e => ciPrefix e rest)).map (fun e => rest.take e.length))
        (R.length - 1)).map
      (fun body => l.take pre.length ++ body)
  else none

/-- Pattern shape for the literal exercise paths
`(\/processed_data\/text\/Exercícios\.(?:txt|json))/i` (`lit` carries the
trailing dot). -/
def shapeLitExt (lit : List Char) (exts : List (List Char)) (l : List Char) : Option (List Char) :=
  if ciPrefix lit l then
    let r := l.drop lit.length
    (exts.find? (fun e => ciPrefix e r)).map (fun e => l.take lit.length ++ r.take e.length)
  else none

def extsOf (l : List String) : List (List Char) := l.map (·.data)

/-- The 19 media-specific patterns of `extractFilePath`, in source order. -/
def mediaPatterns : List (List Char → Option (List Char)) :=
  [ shapeA ["video:".data, "vídeo:".data] (extsOf videoExts),
    shapeB (extsOf videoExts),
    shapeC "/processed_data/videos/".data,
    shapeD "videos/".data (extsOf videoExts),
    shapeA ["audio:".data, "áudio:".data] (extsOf audioExts),
    shapeB (extsOf audioExts),
    shapeC "/processed_data/audio/".data,
    shapeD "audio/".data (extsOf audioExts),
    shapeA ["imagem:".data, "image:".data] (extsOf imageExts),
    shapeB (extsOf imageExts),
    shapeC "/processed_data/images/".data,
    shapeD "images/".data (extsOf imageExts),
    shapeA ["exercícios:".data, "exercicios:".data, "exercises:".data] (extsOf ["json", "txt"]),
    shapeB (extsOf ["json"]),
    shapeLitExt "/processed_data/text/exercícios.".data (extsOf ["txt", "json"]),
    shapeLitExt "text/exercícios.".data (extsOf ["txt", "json"]),
    shapeA ["texto:".data, "text:".data] (extsOf textExts),
    shapeC "/processed_data/text/".data,
    shapeD "text/".data (extsOf textExts) ]

def firstMatch : List (List Char → Option (List Char)) → List Char → Option (List Char)
  | [], _ => none
  | p :: ps, l => (scanL p l).orElse (fun _ => firstMatch ps l)

/-- Model of the for-loop over the media-specific patterns, group 1 of the
first pattern (in order) that matches anywhere. -/
def findMediaPattern (s : String) : Option String :=
  (firstMatch mediaPatterns s.data).map (⟨·⟩)

/-- The fields of `AnalyzeResponse` that `extractFilePath` consults. -/
structure AnalyzeData where
  file_path : Option String
  primary_media_type : Option String

/-- JavaScript truthiness of a possibly-missing string
(`match && match[1]`, `if (data.file_path)` …). -/
def nonEmptyStr (o : Option String) : Option String :=
  o.bind fun s => if s = "" then none else some s

/-- The `defaultFiles` lookup keyed by `primary_media_type.toLowerCase()`;
`mixed` (or any other value) has no entry. -/
def defaultFileFor (t : String) : Option String :=
  let mediaType := asciiLower t
  if mediaType = "video" then some "videos/Dica do professor.mp4"
  else if mediaType = "audio" then some "audio/Dica do professor.mp3"
  else if mediaType = "image" then some "images/Infografico-1.jpg"
  else if mediaType = "text" then some "text/Apresentação.txt"
  else if mediaType = "exercises" then some "text/Exercícios.txt"
  else none

/-- Embedding of `extractFilePath` from `AdaptiveResponse.tsx`: the cascade
comment marker → labeled line → media patterns → explicit `file_path`
field → per-kind default file → `null`. -/
def extractFilePath (data : AnalyzeData) (text : String) : Option String :=
  (nonEmptyStr (findCommentPath text)).orElse fun _ =>
  (nonEmptyStr (findLabeledLine text)).orElse fun _ =>
  (nonEmptyStr (findMediaPattern text)).orElse fun _ =>
  (nonEmptyStr data.file_path).orElse fun _ =>
  (data.primary_media_type.bind fun t => if t = "" then none else defaultFileFor t)

/-- Index of the first occurrence of `pat` in a list (used to state where a
marker first occurs in a piece of response text). -/
def firstSubAt (pat : List Char) : List Char → Option Nat
  | [] => if pat.isEmpty then some 0 else none
  | c :: rest =>
    if pat.isPrefixOf (c :: rest) then some 0
    else (firstSubAt pat rest).map (· + 1)

/-! ### `ExerciseContent.tsx`: the Exercise Parser

`JSON.parse` is modelled by a recursive-descent parser over the character
list.  Numeric literals are kept as their source text (the component never
inspects numbers), `\uXXXX` escapes outside the Unicode scalar range and the
integer-key reordering of JavaScript object iteration are not modelled (no
input considered here exercises them).  Recursion is fuelled; each two units
of fuel consume at least one character, so the initial fuel
`2 * length + 2` can never run out and the fuel branch is unreachable. -/

inductive Json where
  | null
  | bool (b : Bool)
  | num (raw : String)
  | str (s : String)
  | arr (xs : List Json)
  | obj (fields : List (String × Json))

def isJsonWs (c : Char) : Bool := c = ' ' || c = '\t' || c = '\n' || c = '\r'

def jsonWs (l : List Char) : List Char := l.dropWhile isJsonWs

def hexVal (c : Char) : Option Nat :=
  let n := c.toNat
  if 48 ≤ n ∧ n ≤ 57 then some (n - 48)
  else if 97 ≤ n ∧ n ≤ 102 then some (n - 87)
  else if 65 ≤ n ∧ n ≤ 70 then some (n - 55)
  else none

/-- JSON string body after the opening quote: content and remaining text. -/
def parseStringBody : List Char → Option (List Char × List Char)
  | [] => none
  | '"' :: r => some ([], r)
  | '\\' :: 'u' :: h1 :: h2 :: h3 :: h4 :: r =>
    (match hexVal h1, hexVal h2, hexVal h3, hexVal h4 with
     | some v1, some v2, some v3, some v4 =>
       some (Char.ofNat (((v1 * 16 + v2) * 16 + v3) * 16 + v4))
     | _, _, _, _ => none).bind
      (fun c => (parseStringBody r).map (fun (s, rest) => (c :: s, rest)))
  | '\\' :: e :: r =>
    (match e with
     | '"' => some '"' | '\\' => some '\\' | '/' => some '/'
     | 'b' => some '\x08' | 'f' => some '\x0c' | 'n' => some '\n'
     | 'r' => some '\r' | 't' => some '\t' | _ => none).bind
      (fun c => (parseStringBody r).map (fun (s, rest) => (c :: s, rest)))
  | c :: r =>
    if c.val < 32 then none
    else (parseStringBody r).map (fun (s, rest) => (c :: s, rest))

def digits1 (l : List Char) : Option (List Char × List Char) :=
  let ds := l.takeWhile Char.isDigit
  if ds.isEmpty then none else some (ds, l.drop ds.length)

def parseIntPart : List Char → Option (List Char × List Char)
  | '0' :: r => some (['0'], r)
  | c :: r =>
    if c.isDigit then
      some (c :: r.takeWhile Char.isDigit, r.drop (r.takeWhile Char.isDigit).length)
    else none
  | [] => none

def parseFracPart : List Char → Option (List Char × List Char)
  | '.' :: r => (digits1 r).map (fun p => ('.' :: p.1, p.2))
  | l => some ([], l)

def parseExpPart : List Char → Option (List Char × List Char)
  | [] => some ([], [])
  | e :: r =>
    if e = 'e' || e = 'E' then
      let es : List Char × List Char :=
        match r with
        | '+' :: rr => (['+'], rr)
        | '-' :: rr => (['-'], rr)
        | _ => ([], r)
      (digits1 es.2).map (fun p => (e :: es.1 ++ p.1, p.2))
    else some ([], e :: r)

/-- JSON number token (sign, integer, fraction, exponent), kept as text. -/
def parseNum (l : List Char) : Option (List Char × List Char) :=
  let sl : List Char × List Char := match l with | '-' :: r => (['-'], r) | _ => ([], l)
  (parseIntPart sl.2).bind fun ip =>
  (parseFracPart ip.2).bind fun fp =>
  (parseExpPart fp.2).map fun ep =>
  (sl.1 ++ ip.1 ++ fp.1 ++ ep.1, ep.2)

/-- Keeps the last value of key `k` (JavaScript duplicate keys: last value
wins, first position kept). -/
def lastVal (k : String) (v : Json) : List (String × Json) → Json
  | [] => v
  | (k', v') :: rest => lastVal k (if k' = k then v' else v) rest

def dedupeFieldsGo : List String → List (String × Json) → List (String × Json)
  | _, [] => []
  | seen, (k, v) :: rest =>
    if seen.contains k then dedupeFieldsGo seen rest
    else (k, lastVal k v rest) :: dedupeFieldsGo (k :: seen) rest

def dedupeFields (fs : List (String × Json)) : List (String × Json) :=
  dedupeFieldsGo [] fs

mutual

def parseVal : Nat → List Char → Option (Json × List Char)
  | 0, _ => none
  | fuel + 1, l0 =>
    let l := jsonWs l0
    match l with
    | '{' :: r =>
      match jsonWs r with
      | '}' :: r2 => some (.obj [], r2)
      | _ => (parseMembers fuel r).map (fun (fs, rest) => (.obj (dedupeFields fs), rest))
    | '[' :: r =>
      match jsonWs r with
      | ']' :: r2 => some (.arr [], r2)
      | _ => (parseItems fuel r).map (fun (xs, rest) => (.arr xs, rest))
    | '"' :: r => (parseStringBody r).map (fun (s, rest) => (.str ⟨s⟩, rest))
    | 'n' :: 'u' :: 'l' :: 'l' :: r => some (.null, r)
    | 't' :: 'r' :: 'u' :: 'e' :: r => some (.bool true, r)
    | 'f' :: 'a' :: 'l' :: 's' :: 'e' :: r => some (.bool false, r)
    | _ => (parseNum l).map (fun (ds, rest) => (.num ⟨ds⟩, rest))

def parseItems : Nat → List Char → Option (List Json × List Char)
  | 0, _ => none
  | fuel + 1, l =>
    (parseVal fuel l).bind fun (v, r) =>
      match jsonWs r with
      | ',' :: r2 => (parseItems fuel r2).map (fun (xs, rest) => (v :: xs, rest))
      | ']' :: r2 => some ([v], r2)
      | _ => none

def parseMembers : Nat → List Char → Option (List (String × Json) × List Char)
  | 0, _ => none
  | fuel + 1, l =>
    match jsonWs l with
    | '"' :: r =>
      (parseStringBody r).bind fun (k, r2) =>
        match jsonWs r2 with
        | ':' :: r4 =>
          (parseVal fuel r4).bind fun (v, r5) =>
            match jsonWs r5 with
            | ',' :: r7 =>
              (parseMembers fuel r7).map (fun (fs, rest) => ((⟨k⟩, v) :: fs, rest))
            | '}' :: r7 => some ([(⟨k⟩, v)], r7)
            | _ => none
        | _ => none
    | _ => none

end

/-- Model of `JSON.parse`: whole-input parse (trailing whitespace allowed,
anything else is a parse failure). -/
def parseJson (s : String) : Option Json :=
  (parseVal (2 * s.length + 2) s.data).bind fun (v, rest) =>
    if (jsonWs rest).isEmpty then some v else none

/-- The `Exercise` record of `ExerciseContent.tsx`. -/
structure Exercise where
  question : String
  options : Option (List String)
  answer : Option String
  explanation : Option String
deriving DecidableEq, Repr

def jsonLookup (fs : List (String × Json)) (k : String) : Option Json :=
  (fs.find? (fun p => p.1 = k)).map (·.2)

/-- The untyped cast of a JSON value to an `Exercise` (the component uses
parsed objects as-is; string fields are read, a non-string where a string
is rendered is modelled as `""`). -/
def decodeExercise : Json → Exercise
  | .obj fs =>
    { question := match jsonLookup fs "question" with | some (.str s) => s | _ => ""
      options := match jsonLookup fs "options" with
        | some (.arr xs) =>
          some (xs.map (fun x => match x with | .str s => s | _ => ""))
        | _ => none
      answer := match jsonLookup fs "answer" with | some (.str s) => some s | _ => none
      explanation := match jsonLookup fs "explanation" with
        | some (.str s) => some s | _ => none }
  | _ => { question := "", options := none, answer := none, explanation := none }

/-- The JSON strategy of `fetchExercises`: an array is the exercise list; an
object with an `exercises` array uses that; otherwise the object's values
bearing a `question` key are collected; `none` models every path that throws
inside the `try` (unrecognized format, or the `TypeError` on `null`) and so
falls to the plain-text parser. -/
def jsonBranch : Json → Option (List Exercise)
  | .arr xs => some (xs.map decodeExercise)
  | .obj fs =>
    match jsonLookup fs "exercises" with
    | some (.arr xs) => some (xs.map decodeExercise)
    | _ =>
      let extracted := fs.filterMap (fun p =>
        match p.2 with
        | .obj gs =>
          if (jsonLookup gs "question").isSome then some (decodeExercise (.obj gs))
          else none
        | _ => none)
      if extracted.isEmpty then none else some extracted
  | _ => none

/-- Model of `String.prototype.trim` (whitespace and line terminators). -/
def trimStr (s : String) : String :=
  ⟨((s.data.dropWhile isJsWs).reverse.dropWhile isJsWs).reverse⟩

def takeDots (l : List Char) : List Char := l.takeWhile isRegexDot

/-- The question-line pattern `^(\d+)[.)](.+)`, group 2. -/
def matchQuestionLine (line : String) : Option String :=
  let cs := line.data
  let ds := cs.takeWhile Char.isDigit
  if ds.isEmpty then none else
  match cs.drop ds.length with
  | c :: rest =>
    if c = '.' || c = ')' then
      let r := takeDots rest
      if r.isEmpty then none else some ⟨r⟩
    else none
  | [] => none

/-- The option-line pattern `^[a-zA-Z][).] (.+)`, group 1. -/
def matchOptionLine (line : String) : Option String :=
  match line.data with
  | a :: b :: ' ' :: rest =>
    if a.isAlpha && (b = ')' || b = '.') then
      let r := takeDots rest
      if r.isEmpty then none else some ⟨r⟩
    else none
  | _ => none

/-- The labelled-line patterns `^(Resposta|Answer|Gabarito):\s*(.+)/i` and
`^(Explicação|Explanation):\s*(.+)/i`, group 2, on already-trimmed lines. -/
def matchLabeledValue (labels : List (List Char)) (line : String) : Option String :=
  let cs := line.data
  (labels.find? (fun lab => ciPrefix (lab ++ [':']) cs)).bind fun lab =>
    let r := (cs.drop (lab.length + 1)).dropWhile isJsWs
    let v := takeDots r
    if v.isEmpty then none else some ⟨v⟩

def answerLabels : List (List Char) :=
  ["resposta".data, "answer".data, "gabarito".data]

def explLabels : List (List Char) :=
  ["explicação".data, "explanation".data]

/-- The options are attached to an exercise when it is pushed while option
collection is active (`currentExercise.options = [...currentOptions]`). -/
def flushEx (cur : Exercise) (collecting : Bool) (opts : List String) : Exercise :=
  if collecting then { cur with options := some opts } else cur

def newEx (q : String) : Exercise :=
  { question := trimStr q, options := none, answer := none, explanation := none }

/-- The line loop of `parseTextExercises`, state `(currentExercise,
collectingOptions, currentOptions)`; exercises are emitted in source
order.  When a new question line arrives while the current exercise has an
empty question, the source discards it without resetting the option flags
— translated as-is. -/
def parseLoop : List String → Option Exercise → Bool → List String → List Exercise
  | [], cur, collecting, opts =>
    match cur with
    | some e => if e.question ≠ "" then [flushEx e collecting opts] else []
    | none => []
  | l :: rest, cur, collecting, opts =>
    let line := trimStr l
    if line = "" then parseLoop rest cur collecting opts
    else
      match matchQuestionLine line with
      | some q =>
        match cur with
        | some e =>
          if e.question ≠ "" then
            flushEx e collecting opts :: parseLoop rest (some (newEx q)) false []
          else
            parseLoop rest (some (newEx q)) collecting opts
        | none => parseLoop rest (some (newEx q)) collecting opts
      | none =>
        match cur with
        | none => parseLoop rest none collecting opts
        | some e =>
          match matchOptionLine line with
          | some o =>
            parseLoop rest (some e) true ((if collecting then opts else []) ++ [trimStr o])
          | none =>
            match matchLabeledValue answerLabels line with
            | some a =>
              parseLoop rest (some { e with answer := some (trimStr a) }) collecting opts
            | none =>
              match matchLabeledValue explLabels line with
              | some x =>
                parseLoop rest (some { e with explanation := some (trimStr x) })
                  collecting opts
              | none =>
                if collecting then parseLoop rest (some e) collecting opts
                else
                  parseLoop rest (some { e with question := e.question ++ " " ++ line })
                    collecting opts

/-- Embedding of `parseTextExercises` from `ExerciseContent.tsx`. -/
def parseTextExercises (text : String) : List Exercise :=
  parseLoop (splitOnStr "\n" text) none false []

/-- The trimmed capture of each question line, in source order. -/
def questionStarts (text : String) : List String :=
  (splitOnStr "\n" text).filterMap
    (fun l => (matchQuestionLine (trimStr l)).map trimStr)

def noExercisesMsg : String := "Não foi possível extrair exercícios do conteúdo"

def networkMsg (status : Nat) : String :=
  "Erro ao carregar exercícios (" ++ toString status ++ ")"

/-- The plain-text fallback of `fetchExercises` with its "no exercises
found" failure. -/
def textFallback (content : String) : Except String (List Exercise) :=
  let t := parseTextExercises content
  if t.isEmpty then .error noExercisesMsg else .ok t

/-- The content processing of `fetchExercises`: JSON strategy first; every
failure inside the JSON `try` (parse error, unrecognized format, `null`
member access) is caught and falls to the plain-text parser. -/
def processExercisesContent (content : String) : Except String (List Exercise) :=
  match parseJson content with
  | some j =>
    match jsonBranch j with
    | some exs => .ok exs
    | none => textFallback content
  | none => textFallback content

/-- `fetchExercises` after the network step: an HTTP failure carries the
status-labelled message, a fetched body goes through content processing. -/
def fetchExercisesResult (response : Except Nat String) : Except String (List Exercise) :=
  match response with
  | .error status => .error (networkMsg status)
  | .ok content => processExercisesContent content

/-! ### The `InteractivePrompt` assessment component

The component is modelled as a transition system.  Each user interaction
(answering the shown question, pressing the completion screen's continue
button) is one atomic event; React commits all queued state updates between
events, so an event handler starts from the committed state.  Inside
`completeAssessment` the source reads `knowledgeGaps`, `preferredFormat`,
`userLevel` and `userId` through the closure of the render that produced
the handler — the state at event entry — while its `setKnowledgeGaps`
updater is functional; the model passes that entry state separately as
`stale`.  `analyzeQuery` is abstracted by a total `oracle` from the query
text to the backend's response text (the model of completion covers runs
whose analysis calls succeed). -/

structure AQuestion where
  id : Nat
  text : String
  isOpenEnded : Bool
  options : List String
  userResponse : Option String
deriving DecidableEq, Repr

structure CompletionPayload where
  userId : String
  knowledgeGaps : List String
  preferredFormat : String
  level : String
deriving DecidableEq, Repr

structure AState where
  userId : String
  questions : List AQuestion
  currentQuestion : Option AQuestion
  knowledgeGaps : List String
  preferredFormat : String
  userLevel : String
  formatPreferences : List (String × Nat)
  assessmentComplete : Bool
  onCompleteCalls : List CompletionPayload
deriving DecidableEq, Repr

def topics : List String :=
  ["HTML", "CSS", "JavaScript", "Acessibilidade Web", "Responsividade"]

def levelOptions : List String := ["iniciante", "intermediário", "avançado"]

def formatOptions : List String := ["texto", "vídeo", "áudio", "imagem"]

def topicQuestion (i : Nat) (topic : String) : AQuestion :=
  { id := i + 1
    text := "Qual é seu nível de conhecimento em " ++ topic ++ "?"
    isOpenEnded := false
    options := levelOptions
    userResponse := none }

/-- The fixed question list built by `generateInitialQuestions`: one level
question per topic, the format-preference question, two open-ended
questions. -/
def initQuestions : List AQuestion :=
  (((List.range topics.length).zip topics).map (fun p => topicQuestion p.1 p.2))
  ++ [{ id := topics.length + 1
        text := "Qual formato você prefere para aprender novos conteúdos?"
        isOpenEnded := false
        options := formatOptions
        userResponse := none },
      { id := topics.length + 2
        text := "O que é HTML e qual sua função no desenvolvimento web?"
        isOpenEnded := true
        options := []
        userResponse := none },
      { id := topics.length + 3
        text := "Descreva brevemente a estrutura básica de uma página HTML."
        isOpenEnded := true
        options := []
        userResponse := none }]

/-- The component state right after `generateInitialQuestions` ran
(`currentStep` = 1, first question shown). -/
def initAState (userId : String) : AState :=
  { userId
    questions := initQuestions
    currentQuestion := initQuestions.head?
    knowledgeGaps := []
    preferredFormat := "texto"
    userLevel := "intermediário"
    formatPreferences := [("texto", 0), ("vídeo", 0), ("áudio", 0), ("imagem", 0)]
    assessmentComplete := false
    onCompleteCalls := [] }

/-- `updateUserLevel`: plurality vote over the answered level questions in
`Object.entries` order (`iniciante`, `intermediário`, `avançado`), strict
improvement starting from (`intermediário`, 0); no vote leaves the level
unchanged. -/
def pluralityLevel (qs : List AQuestion) (current : String) : String :=
  let levelQs := qs.filter (fun q =>
    match q.userResponse with
    | some r => levelOptions.contains r
    | none => false)
  if levelQs.length = 0 then current
  else
    (levelOptions.foldl (fun (acc : String × Nat) lv =>
      let c := (levelQs.filter (fun q => q.userResponse = some lv)).length
      if c > acc.2 then (lv, c) else acc) ("intermediário", 0)).1

/-- Model of `String.prototype.replace(pat, '')` for a plain pattern:
remove the first occurrence. -/
def removeFirstOcc (pat : List Char) : List Char → List Char
  | [] => []
  | c :: rest =>
    if pat.isPrefixOf (c :: rest) then (c :: rest).drop pat.length
    else c :: removeFirstOcc pat rest

/-- `text.split('em ')[1].replace('?', '')`; the split index exists for
every topic-question text (guarded by the substring check), `""` stands in
for the impossible missing case. -/
def extractTopic (text : String) : String :=
  ⟨removeFirstOcc ['?'] (((splitOnStr "em " text).get? 1).getD "").data⟩

/-- `setFormatPreferences(prev => ({...prev, [answer]: prev[answer]+1}))`;
the radio group only ever supplies one of the four existing keys. -/
def bumpFormat (prefs : List (String × Nat)) (k : String) : List (String × Nat) :=
  prefs.map (fun p => if p.1 = k then (p.1, p.2 + 1) else p)

/-- The UI gating for an answer: the multiple-choice radio group restricts
the input to the question's option values and the button is disabled on
empty input; the open-ended button requires a trimmed length of at least
five. -/
def answerValid (q : AQuestion) (answer : String) : Bool :=
  if q.isOpenEnded then decide ((trimStr answer).length ≥ 5)
  else q.options.contains answer

def truthyResp : Option String → Bool
  | some r => r != ""
  | none => false

def mkAnalysisQuery (q : AQuestion) : String :=
  "Avalie esta resposta para a pergunta \"" ++ q.text ++ "\": \""
    ++ q.userResponse.getD "" ++ "\""

/-- The keyword mapping of an open-ended question to a gap topic. -/
def gapTopicOf (text : String) : String :=
  if containsStr text "HTML" then "HTML"
  else if containsStr text "CSS" then "CSS"
  else if containsStr text "JavaScript" then "JavaScript"
  else "Desenvolvimento Web"

/-- One iteration of the open-ended analysis loop in `completeAssessment`:
a response containing `incorreto`/`incompleto` (lowercased) adds the
question's topic — the duplicate check reads the stale closure state, the
append is a functional update. -/
def gapStep (oracle : String → String) (stale : AState) (st : AState)
    (q : AQuestion) : AState :=
  let resp := asciiLower (oracle (mkAnalysisQuery q))
  if containsStr resp "incorreto" || containsStr resp "incompleto" then
    let topic := gapTopicOf q.text
    if stale.knowledgeGaps.contains topic then st
    else { st with knowledgeGaps := st.knowledgeGaps ++ [topic] }
  else st

/-- `completeAssessment(finalQuestions)`: analyse the answered open-ended
questions, mark the assessment complete, and invoke `onComplete` once with
the payload read from the stale closure state. -/
def completeAssessment (oracle : String → String) (finalQuestions : List AQuestion)
    (acc stale : AState) : AState :=
  let openQs := finalQuestions.filter (fun q => q.isOpenEnded && truthyResp q.userResponse)
  let acc2 := openQs.foldl (gapStep oracle stale) acc
  { acc2 with
      assessmentComplete := true
      onCompleteCalls := acc2.onCompleteCalls
        ++ [{ userId := stale.userId
              knowledgeGaps := stale.knowledgeGaps
              preferredFormat := stale.preferredFormat
              level := stale.userLevel }] }

/-- The state updates of `handleAnswer` before advancing: record the
answer, then the format-preference and topic-level side effects. -/
def applyAnswer (q : AQuestion) (answer : String) (s : AState) : AState :=
  let updatedQuestion := { q with userResponse := some answer }
  let updatedQuestions := s.questions.map (fun x =>
    if x.id = q.id then updatedQuestion else x)
  let s1 := { s with questions := updatedQuestions }
  let s2 :=
    if containsStr q.text "formato você prefere" then
      { s1 with preferredFormat := answer
                formatPreferences := bumpFormat s1.formatPreferences answer }
    else s1
  if containsStr q.text "nível de conhecimento em" then
    let topic := extractTopic q.text
    let s3a :=
      if answer = "iniciante" then
        { s2 with knowledgeGaps := s2.knowledgeGaps ++ [topic] }
      else s2
    { s3a with userLevel := pluralityLevel updatedQuestions s3a.userLevel }
  else s2

/-- Embedding of `handleAnswer`: no question is shown once the assessment
is complete, an invalid input leaves the state unchanged (disabled button),
otherwise the side effects run and the flow advances to the next question
of the stale array or completes. -/
def handleAnswer (oracle : String → String) (answer : String) (s : AState) : AState :=
  if s.assessmentComplete then s else
  match s.currentQuestion with
  | none => s
  | some q =>
    if answerValid q answer then
      let s3 := applyAnswer q answer s
      let nextIdx := (s.questions.findIdx (fun x => x.id = q.id)) + 1
      if nextIdx < s.questions.length then
        { s3 with currentQuestion := s.questions.get? nextIdx }
      else
        completeAssessment oracle s3.questions s3 s
    else s

/-- The completion screen's "Continuar para Conteúdos Personalizados"
button: it invokes `onComplete` again with the current state. -/
def clickContinue (s : AState) : AState :=
  if s.assessmentComplete then
    { s with onCompleteCalls := s.onCompleteCalls
        ++ [{ userId := s.userId
              knowledgeGaps := s.knowledgeGaps
              preferredFormat := s.preferredFormat
              level := s.userLevel }] }
  else s

inductive AEvent where
  | answer (a : String)
  | continueClick

def stepA (oracle : String → String) (s : AState) : AEvent → AState
  | .answer a => handleAnswer oracle a s
  | .continueClick => clickContinue s

def runA (oracle : String → String) (s : AState) (events : List AEvent) : AState :=
  events.foldl (stepA oracle) s

/-! ### Expected intermediate states of the all-beginner assessment run -/

def fmtQuestion : AQuestion :=
  { id := 6
    text := "Qual formato você prefere para aprender novos conteúdos?"
    isOpenEnded := false
    options := formatOptions
    userResponse := none }

def openQ1 : AQuestion :=
  { id := 7
    text := "O que é HTML e qual sua função no desenvolvimento web?"
    isOpenEnded := true
    options := []
    userResponse := none }

def openQ2 : AQuestion :=
  { id := 8
    text := "Descreva brevemente a estrutura básica de uma página HTML."
    isOpenEnded := true
    options := []
    userResponse := none }

def beginnerTopicQs : List AQuestion :=
  [{ topicQuestion 0 "HTML" with userResponse := some "iniciante" },
   { topicQuestion 1 "CSS" with userResponse := some "iniciante" },
   { topicQuestion 2 "JavaScript" with userResponse := some "iniciante" },
   { topicQuestion 3 "Acessibilidade Web" with userResponse := some "iniciante" },
   { topicQuestion 4 "Responsividade" with userResponse := some "iniciante" }]

def beginnerQs (r6 r7 r8 : Option String) : List AQuestion :=
  beginnerTopicQs ++
    [{ fmtQuestion with userResponse := r6 },
     { openQ1 with userResponse := r7 },
     { openQ2 with userResponse := r8 }]

def initFormatPrefs : List (String × Nat) :=
  [("texto", 0), ("vídeo", 0), ("áudio", 0), ("imagem", 0)]

def beginnerS5 (uid : String) : AState :=
  { userId := uid
    questions := beginnerQs none none none
    currentQuestion := some fmtQuestion
    knowledgeGaps := topics
    preferredFormat := "texto"
    userLevel := "iniciante"
    formatPreferences := initFormatPrefs
    assessmentComplete := false
    onCompleteCalls := [] }

def beginnerS6 (uid fmt : String) : AState :=
  { beginnerS5 uid with
      questions := beginnerQs (some fmt) none none
      currentQuestion := some openQ1
      preferredFormat := fmt
      formatPreferences := bumpFormat initFormatPrefs fmt }

def beginnerS7 (uid fmt o1 : String) : AState :=
  { beginnerS6 uid fmt with
      questions := beginnerQs (some fmt) (some o1) none
      currentQuestion := some openQ2 }

def beginnerFinal (uid fmt o1 o2 : String) : AState :=
  { beginnerS7 uid fmt o1 with
      questions := beginnerQs (some fmt) (some o1) (some o2)
      assessmentComplete := true
      onCompleteCalls := [{ userId := uid, knowledgeGaps := topics,
                            preferredFormat := fmt, level := "iniciante" }] }

/-! ### Lemmas about the string machinery -/

theorem isPrefixOf_true {l m : List Char} : l.isPrefixOf m = true ↔ l <+: m :=
  List.isPrefixOf_iff_prefix

theorem startsWithStr_true {pre s : String} :
    startsWithStr pre s = true ↔ pre.data <+: s.data := isPrefixOf_true

theorem listSub_true {pat l : List Char} : listSub pat l = true ↔ pat <:+: l := by
  induction l with
  | nil =>
    simp only [listSub, List.isEmpty_iff]
    constructor
    · rintro rfl; exact ⟨[], [], rfl⟩
    · rintro ⟨a, b, h⟩
      rcases List.append_eq_nil.mp h with ⟨h1, h2⟩
      exact (List.append_eq_nil.mp h1).2
  | cons c rest ih =>
    simp only [listSub, Bool.or_eq_true, isPrefixOf_true, ih]
    exact (List.infix_cons_iff).symm

theorem containsStr_true {s pat : String} :
    containsStr s pat = true ↔ pat.data <:+: s.data := listSub_true

theorem containsStr_false_of_not_mem {s pat : String} (c : Char)
    (hc : c ∈ pat.data) (hs : c ∉ s.data) : containsStr s pat = false := by
  rw [Bool.eq_false_iff]
  intro h
  exact hs ((containsStr_true.mp h).sublist.subset hc)

theorem startsWithStr_false_of_not_mem {pre s : String} (c : Char)
    (hc : c ∈ pre.data) (hs : c ∉ s.data) : startsWithStr pre s = false := by
  rw [Bool.eq_false_iff]
  intro h
  exact hs ((startsWithStr_true.mp h).sublist.subset hc)

theorem startsWithStr_append {pre a : String} (b : String)
    (h : startsWithStr pre a = true) : startsWithStr pre (a ++ b) = true := by
  rw [startsWithStr_true] at h ⊢
  rw [String.data_append]
  exact h.trans ⟨b.data, rfl⟩

theorem stripLeadingSlashes_of_no_slash {p : String} (h : ∀ c ∈ p.data, c ≠ '/') :
    stripLeadingSlashes p = p := by
  rw [String.ext_iff]
  show p.data.dropWhile (· = '/') = p.data
  cases hd : p.data with
  | nil => simp
  | cons c rest =>
    have : c ≠ '/' := h c (by rw [hd]; exact List.mem_cons_self c rest)
    simp [List.dropWhile_cons, this]

theorem string_append_ne_empty (a : String) {t : String} (h : t ≠ "") :
    a ++ t ≠ "" := by
  rw [Ne, String.ext_iff, String.data_append, List.append_eq_nil]
  rintro ⟨-, h2⟩
  exact h (String.ext_iff.mpr h2)

theorem ne_empty_of_data_cons {s : String} {c : Char} {l : List Char}
    (h : s.data = c :: l) : s ≠ "" := by
  rw [Ne, String.ext_iff, h]
  simp

theorem containsStr_of_middle {a b r : String} {pat : String}
    (h : containsStr b pat = true) : containsStr (a ++ b ++ r) pat = true := by
  rw [containsStr_true] at h ⊢
  rw [String.data_append, String.data_append]
  exact h.trans (List.infix_append _ _ _)

/-! ### Theorems about `mediaUtils.ts` -/

theorem asciiLower_append (a b : String) :
    asciiLower (a ++ b) = asciiLower a ++ asciiLower b := by
  rw [String.ext_iff]
  show (a ++ b).data.map Char.toLower
      = (asciiLower a).data ++ (asciiLower b).data
  rw [String.data_append, List.map_append]
  rfl

/-- When the input contains no root marker and needs no slash-stripping,
`mediaCleanPath` is just the extension-based inference. -/
theorem mediaCleanPath_no_slash {p : String} (h1 : ∀ c ∈ p.data, c ≠ '/') :
    mediaCleanPath p =
      (if videoExts.contains (lastExt p) then "videos/" ++ p
       else if audioExts.contains (lastExt p) then "audio/" ++ p
       else if imageExts.contains (lastExt p) then "images/" ++ p
       else if textExts.contains (lastExt p) then "text/" ++ p
       else p) := by
  have hslash : ('/' : Char) ∉ p.data := fun hc => h1 '/' hc rfl
  have h4 : containsStr p "/processed_data/" = false :=
    containsStr_false_of_not_mem '/' (by decide) hslash
  have hstrip : stripLeadingSlashes p = p := stripLeadingSlashes_of_no_slash h1
  have h5 : mediaDirs.any (fun d => startsWithStr d p) = false := by
    have hdir : ∀ d ∈ mediaDirs, startsWithStr d p = false := by
      intro d hd
      fin_cases hd <;> exact startsWithStr_false_of_not_mem '/' (by decide) hslash
    simp only [List.any_eq_false]
    intro d hd
    simp [hdir d hd]
  simp only [mediaCleanPath, h4, Bool.false_eq_true, if_false, hstrip, h5, ite_self]

/-- When the stripped path starts with no known media directory and its
lowercase extension is in none of the video, audio or image sets,
`mediaCleanPath` prepends `text/` exactly for the txt/md/pdf extensions
and leaves the stripped path alone otherwise. -/
theorem mediaCleanPath_unrecognized (url : String)
    (hmd : mediaDirs.any (fun d => startsWithStr d (mediaStripped url)) = false)
    (h6 : videoExts.contains (lastExt (mediaStripped url)) = false)
    (h7 : audioExts.contains (lastExt (mediaStripped url)) = false)
    (h8 : imageExts.contains (lastExt (mediaStripped url)) = false) :
    mediaCleanPath url =
      (if textExts.contains (lastExt (mediaStripped url)) then
        "text/" ++ mediaStripped url
      else mediaStripped url) := by
  have hbody : mediaCleanPath url =
      (if mediaDirs.any (fun d => startsWithStr d (mediaStripped url)) then
        mediaStripped url
      else if videoExts.contains (lastExt (mediaStripped url)) then
        "videos/" ++ mediaStripped url
      else if audioExts.contains (lastExt (mediaStripped url)) then
        "audio/" ++ mediaStripped url
      else if imageExts.contains (lastExt (mediaStripped url)) then
        "images/" ++ mediaStripped url
      else if textExts.contains (lastExt (mediaStripped url)) then
        if containsStr (asciiLower (mediaStripped url)) "exercício" ||
           containsStr (asciiLower (mediaStripped url)) "exercicio" ||
           containsStr (asciiLower (mediaStripped url)) "exercise" then
          "text/" ++ mediaStripped url
        else
          "text/" ++ mediaStripped url
      else mediaStripped url) := rfl
  rw [hbody]
  simp only [hmd, h6, h7, h8, Bool.false_eq_true, if_false, ite_self]

/-! ### Theorems settling the claims about `mediaUtils.ts` -/

/-- C9: `getFileType` and `validateMediaUrl` are total Lean functions by
construction (never throw), and on empty input they return their defined
results: `unknown` and the empty string. -/
theorem media_utils_total_empty :
    ∀ apiUrl : String,
      validateMediaUrl apiUrl "" = "" ∧ getFileType "" = FileType.unknown :=
  fun _ => ⟨rfl, rfl⟩

/-- C5 fails on the code: an unrecognized extension is left *without* a
media subdirectory rather than falling back to `text`; `file.xyz` is
placed directly under `/processed_data/`, not under `/processed_data/text/`. -/
theorem validateMediaUrl_unrecognized_ext_counterexample :
    validateMediaUrl "http://localhost:8000" "file.xyz"
        = "http://localhost:8000/processed_data/file.xyz"
    ∧ validateMediaUrl "http://localhost:8000" "file.xyz"
        ≠ "http://localhost:8000/processed_data/text/file.xyz" := by
  constructor <;> decide

/-- C5 (amended): for every non-empty input that is not an http(s) URL,
after marker stripping (the text after a contained `/processed_data/`
marker, then leading slashes removed), when the stripped path starts with
no known media directory and its lowercase extension is in none of the
video, audio or image sets, only the extensions txt/md/pdf are placed
under `text`; any other unrecognized extension leaves the stripped path
with no subdirectory, directly under `/processed_data/`; an input that
itself starts with the root marker is returned as-is after the base URL,
with no inference at all. -/
theorem validateMediaUrl_ext_fallthrough_amended (apiUrl p : String)
    (h0 : p ≠ "")
    (h2 : startsWithStr "http://" p = false)
    (h3 : startsWithStr "https://" p = false)
    (hmd : mediaDirs.any (fun d => startsWithStr d (mediaStripped p)) = false)
    (h6 : videoExts.contains (lastExt (mediaStripped p)) = false)
    (h7 : audioExts.contains (lastExt (mediaStripped p)) = false)
    (h8 : imageExts.contains (lastExt (mediaStripped p)) = false) :
    (startsWithStr "/processed_data/" p = true →
      validateMediaUrl apiUrl p = apiUrl ++ p)
    ∧ (startsWithStr "/processed_data/" p = false →
      (textExts.contains (lastExt (mediaStripped p)) = false →
        validateMediaUrl apiUrl p
          = apiUrl ++ "/processed_data/" ++ mediaStripped p)
      ∧ (textExts.contains (lastExt (mediaStripped p)) = true →
        validateMediaUrl apiUrl p
          = apiUrl ++ "/processed_data/" ++ ("text/" ++ mediaStripped p))) := by
  have hcp := mediaCleanPath_unrecognized p hmd h6 h7 h8
  refine ⟨fun hpd => ?_, fun hpd => ⟨fun ht => ?_, fun ht => ?_⟩⟩
  · simp only [validateMediaUrl, h0, if_false, h2, h3, Bool.or_self,
      Bool.false_eq_true, hpd, if_true, ite_false, ite_true]
  · simp only [validateMediaUrl, h0, if_false, h2, h3, Bool.or_self,
      Bool.false_eq_true, hpd, if_true, ite_false, ite_true, hcp, ht]
  · simp only [validateMediaUrl, h0, if_false, h2, h3, Bool.or_self,
      Bool.false_eq_true, hpd, if_true, ite_false, ite_true, hcp, ht]

theorem validateMediaUrl_ext_fallthrough_amended_witness :
    validateMediaUrl "http://localhost:8000" "/home/u/processed_data/docs/file.xyz"
        = "http://localhost:8000" ++ "/processed_data/"
            ++ mediaStripped "/home/u/processed_data/docs/file.xyz"
    ∧ validateMediaUrl "http://localhost:8000" "file.txt"
        = "http://localhost:8000" ++ "/processed_data/"
            ++ ("text/" ++ mediaStripped "file.txt") :=
  ⟨((validateMediaUrl_ext_fallthrough_amended "http://localhost:8000"
      "/home/u/processed_data/docs/file.xyz" (by decide) (by decide) (by decide)
      (by decide) (by decide) (by decide) (by decide)).2 (by decide)).1 (by decide),
   ((validateMediaUrl_ext_fallthrough_amended "http://localhost:8000"
      "file.txt" (by decide) (by decide) (by decide)
      (by decide) (by decide) (by decide) (by decide)).2 (by decide)).2 (by decide)⟩

/-- C7: a bare filename (no slash) whose lowercase extension is in the
video set is placed under the `videos` subdirectory by the Path
Normalizer, and the File-Type Classifier independently reports `video`
for the resulting normalized URL. -/
theorem video_ext_normalizer_classifier_agree (apiUrl p : String)
    (h0 : p ≠ "") (h1 : ∀ c ∈ p.data, c ≠ '/')
    (h2 : videoExts.contains (lastExt p) = true) :
    validateMediaUrl apiUrl p = apiUrl ++ "/processed_data/" ++ ("videos/" ++ p)
    ∧ getFileType (validateMediaUrl apiUrl p) = FileType.video := by
  have hslash : ('/' : Char) ∉ p.data := fun hc => h1 '/' hc rfl
  have hh1 : startsWithStr "http://" p = false :=
    startsWithStr_false_of_not_mem '/' (by decide) hslash
  have hh2 : startsWithStr "https://" p = false :=
    startsWithStr_false_of_not_mem '/' (by decide) hslash
  have hh3 : startsWithStr "/processed_data/" p = false :=
    startsWithStr_false_of_not_mem '/' (by decide) hslash
  have heq : validateMediaUrl apiUrl p
      = apiUrl ++ "/processed_data/" ++ ("videos/" ++ p) := by
    simp only [validateMediaUrl, h0, hh1, hh2, hh3, Bool.or_self,
      Bool.false_eq_true, if_false, mediaCleanPath_no_slash h1, h2, ite_true]
  refine ⟨heq, ?_⟩
  rw [heq]
  have hne : apiUrl ++ "/processed_data/" ++ ("videos/" ++ p) ≠ "" := by
    apply string_append_ne_empty
    exact ne_empty_of_data_cons (c := 'v') (l := "ideos/".data ++ p.data)
      (by rw [String.data_append]; rfl)
  have hdata : (asciiLower (apiUrl ++ "/processed_data/" ++ ("videos/" ++ p))).data
      = (asciiLower apiUrl).data ++ "/processed_data/videos/".data
          ++ (asciiLower p).data := by
    show ((apiUrl ++ "/processed_data/" ++ ("videos/" ++ p)).data.map Char.toLower) = _
    rw [String.data_append, String.data_append, String.data_append]
    simp only [List.map_append, List.append_assoc]
    rfl
  have hcont : containsStr (asciiLower (apiUrl ++ "/processed_data/" ++ ("videos/" ++ p)))
      "/videos/" = true := by
    rw [containsStr_true, hdata]
    have base : "/videos/".data <:+: "/processed_data/videos/".data :=
      ⟨"/processed_data".data, [], by decide⟩
    exact base.trans (List.infix_append _ _ _)
  simp only [getFileType, hne, hcont, Bool.or_true, if_true, ite_true,
    Bool.false_eq_true, if_false, ite_false]

theorem video_ext_normalizer_classifier_agree_witness :
    validateMediaUrl "http://localhost:8000" "Aula.MP4"
        = "http://localhost:8000" ++ "/processed_data/" ++ ("videos/" ++ "Aula.MP4")
    ∧ getFileType (validateMediaUrl "http://localhost:8000" "Aula.MP4")
        = FileType.video :=
  video_ext_normalizer_classifier_agree "http://localhost:8000" "Aula.MP4"
    (by decide) (by decide) (by decide)

/-- C10: assuming the configured API base URL begins with `http://` or
`https://`, the Path Normalizer is idempotent: every non-empty output
begins with the base URL (hence is returned unchanged by a second
application), and empty maps to empty. -/
theorem validateMediaUrl_idempotent (apiUrl p : String)
    (h : startsWithStr "http://" apiUrl = true ∨ startsWithStr "https://" apiUrl = true) :
    validateMediaUrl apiUrl (validateMediaUrl apiUrl p) = validateMediaUrl apiUrl p := by
  by_cases hp0 : p = ""
  · subst hp0; rfl
  by_cases hp1 : (startsWithStr "http://" p || startsWithStr "https://" p) = true
  · have hvp : validateMediaUrl apiUrl p = p := by
      unfold validateMediaUrl
      rw [if_neg hp0, if_pos hp1]
    rw [hvp]
    exact hvp
  · have key : ∃ t : String, t ≠ "" ∧ validateMediaUrl apiUrl p = apiUrl ++ t := by
      unfold validateMediaUrl
      rw [if_neg hp0, if_neg hp1]
      by_cases hp2 : startsWithStr "/processed_data/" p = true
      · rw [if_pos hp2]; exact ⟨p, hp0, rfl⟩
      · rw [if_neg hp2]
        refine ⟨"/processed_data/" ++ mediaCleanPath p, ?_, String.append_assoc _ _ _⟩
        exact ne_empty_of_data_cons (c := '/')
          (l := "processed_data/".data ++ (mediaCleanPath p).data)
          (by rw [String.data_append]; rfl)
    obtain ⟨t, ht, heq⟩ := key
    rw [heq]
    have hr1 : (startsWithStr "http://" (apiUrl ++ t)
        || startsWithStr "https://" (apiUrl ++ t)) = true := by
      rcases h with h | h
      · rw [startsWithStr_append t h, Bool.true_or]
      · rw [startsWithStr_append t h, Bool.or_true]
    have hrne : apiUrl ++ t ≠ "" := string_append_ne_empty apiUrl ht
    unfold validateMediaUrl
    rw [if_neg hrne, if_pos hr1]

theorem validateMediaUrl_idempotent_witness :
    validateMediaUrl "http://localhost:8000"
        (validateMediaUrl "http://localhost:8000" "file.xyz")
      = validateMediaUrl "http://localhost:8000" "file.xyz" :=
  validateMediaUrl_idempotent "http://localhost:8000" "file.xyz"
    (Or.inl (by decide))

/-! ### Theorems about the Response Extractor -/

theorem isPrefixOf_append_eq {pat l : List Char} (r : List Char)
    (h : pat.length ≤ l.length) :
    pat.isPrefixOf (l ++ r) = pat.isPrefixOf l := by
  cases hp : pat.isPrefixOf l with
  | true =>
    rw [isPrefixOf_true] at hp ⊢
    exact hp.trans ⟨r, rfl⟩
  | false =>
    rw [Bool.eq_false_iff] at hp ⊢
    intro hc
    apply hp
    rw [isPrefixOf_true] at hc ⊢
    rw [List.prefix_iff_eq_take] at hc ⊢
    rwa [List.take_append_of_le_length h] at hc

theorem firstSubAt_cons_succ {pat : List Char} {c : Char} {rest : List Char} {n : Nat}
    (h : firstSubAt pat (c :: rest) = some (n + 1)) :
    pat.isPrefixOf (c :: rest) = false ∧ firstSubAt pat rest = some n := by
  by_cases hp : pat.isPrefixOf (c :: rest) = true
  · rw [firstSubAt, if_pos hp] at h
    simp at h
  · refine ⟨Bool.eq_false_iff.mpr hp, ?_⟩
    rw [firstSubAt, if_neg hp] at h
    cases hfs : firstSubAt pat rest with
    | none => rw [hfs] at h; simp at h
    | some m =>
      rw [hfs] at h
      simp only [Option.map_some', Option.some.injEq] at h
      rw [show m = n by omega]

theorem commentClose_decomp (X post : List Char)
    (hdot : ∀ c ∈ X, isRegexDot c = true)
    (hfirst : firstSubAt closeMarker (X ++ closeMarker) = some X.length) :
    commentClose (X ++ closeMarker ++ post) = some X := by
  induction X with
  | nil =>
    have h1 : closeMarker.isPrefixOf ((' ' : Char) :: ("-->".data ++ post)) = true :=
      isPrefixOf_true.mpr ⟨post, rfl⟩
    show commentClose ((' ' : Char) :: ("-->".data ++ post)) = some []
    simp [commentClose, h1]
    exact ⟨post, rfl⟩
  | cons c X' ih =>
    obtain ⟨hnp, hrest⟩ := firstSubAt_cons_succ (c := c)
      (by simpa using hfirst)
    have hlen : closeMarker.length ≤ (c :: (X' ++ closeMarker)).length := by
      simp [closeMarker]
    have hnp2 : closeMarker.isPrefixOf (c :: (X' ++ closeMarker ++ post)) = false := by
      have : c :: (X' ++ closeMarker ++ post) = (c :: (X' ++ closeMarker)) ++ post := by
        simp
      rw [this, isPrefixOf_append_eq post hlen]
      exact hnp
    have hdotc : isRegexDot c = true := hdot c (List.mem_cons_self c X')
    show commentClose (c :: (X' ++ closeMarker ++ post)) = some (c :: X')
    rw [commentClose, hnp2]
    simp only [Bool.false_eq_true, if_false, hdotc, if_true]
    rw [ih (fun x hx => hdot x (List.mem_cons_of_mem c hx)) hrest]
    rfl

theorem commentAt_decomp (X post : List Char)
    (hdot : ∀ c ∈ X, isRegexDot c = true)
    (hfirst : firstSubAt closeMarker (X ++ closeMarker) = some X.length) :
    commentAt (openMarker ++ (X ++ closeMarker ++ post)) = some X := by
  unfold commentAt
  rw [if_pos (isPrefixOf_true.mpr ⟨_, rfl⟩)]
  have : openMarker.length = "<!-- file_path: ".length := rfl
  rw [List.drop_left]
  exact commentClose_decomp X post hdot hfirst

theorem scanL_eq_of_match {m : List Char → Option (List Char)} {l v : List Char}
    (h : m l = some v) : scanL m l = some v := by
  cases l with
  | nil => simpa [scanL] using h
  | cons c rest => simp [scanL, h]

theorem scanL_cons_of_fail {m : List Char → Option (List Char)} {c : Char}
    {rest : List Char} (h : m (c :: rest) = none) :
    scanL m (c :: rest) = scanL m rest := by
  simp [scanL, h]

theorem scanL_comment_decomp (pre X post : List Char)
    (hpre : firstSubAt openMarker (pre ++ openMarker) = some pre.length)
    (hdot : ∀ c ∈ X, isRegexDot c = true)
    (hX : firstSubAt closeMarker (X ++ closeMarker) = some X.length) :
    scanL commentAt (pre ++ openMarker ++ (X ++ closeMarker ++ post)) = some X := by
  induction pre with
  | nil =>
    rw [List.nil_append]
    exact scanL_eq_of_match (commentAt_decomp X post hdot hX)
  | cons c pre' ih =>
    obtain ⟨hnp, hrest⟩ := firstSubAt_cons_succ (c := c)
      (by simpa using hpre)
    have hlen : openMarker.length ≤ (c :: (pre' ++ openMarker)).length := by
      simp [openMarker]
    have hfail : commentAt ((c :: pre') ++ openMarker ++ (X ++ closeMarker ++ post))
        = none := by
      unfold commentAt
      have halign : (c :: pre') ++ openMarker ++ (X ++ closeMarker ++ post)
          = (c :: (pre' ++ openMarker)) ++ (X ++ closeMarker ++ post) := by
        simp
      rw [halign, isPrefixOf_append_eq _ hlen, hnp]
      simp
    have hstep : scanL commentAt ((c :: pre') ++ openMarker ++ (X ++ closeMarker ++ post))
        = scanL commentAt (pre' ++ openMarker ++ (X ++ closeMarker ++ post)) := by
      have halign : (c :: pre') ++ openMarker ++ (X ++ closeMarker ++ post)
          = c :: (pre' ++ openMarker ++ (X ++ closeMarker ++ post)) := by
        simp
      rw [halign] at hfail ⊢
      exact scanL_cons_of_fail hfail
    rw [hstep]
    exact ih hrest

theorem findCommentPath_decomp (pre X post : String)
    (hdot : ∀ c ∈ X.data, isRegexDot c = true)
    (hpre : firstSubAt openMarker (pre.data ++ openMarker) = some pre.data.length)
    (hX : firstSubAt closeMarker (X.data ++ closeMarker) = some X.data.length) :
    findCommentPath (pre ++ "<!-- file_path: " ++ X ++ " -->" ++ post) = some X := by
  unfold findCommentPath
  have hdata : (pre ++ "<!-- file_path: " ++ X ++ " -->" ++ post).data
      = pre.data ++ openMarker ++ (X.data ++ closeMarker ++ post.data) := by
    simp only [String.data_append, openMarker, closeMarker, List.append_assoc]
  rw [hdata, scanL_comment_decomp pre.data X.data post.data hpre hdot hX]
  rfl

/-- C1: a response text decomposable around a well-formed comment marker
`<!-- file_path: X -->` (the open marker first occurs where the
decomposition places it, `X` is non-empty, newline-free and contains no
close marker) makes the Response Extractor return `X`, whatever labeled
lines or media patterns the surrounding text contains and whatever the
response's `file_path` and `primary_media_type` fields hold: the comment
marker has highest priority. -/
theorem extractFilePath_comment_marker_priority (d : AnalyzeData) (pre X post : String)
    (hne : X ≠ "")
    (hdot : ∀ c ∈ X.data, isRegexDot c = true)
    (hpre : firstSubAt openMarker (pre.data ++ openMarker) = some pre.data.length)
    (hX : firstSubAt closeMarker (X.data ++ closeMarker) = some X.data.length) :
    extractFilePath d (pre ++ "<!-- file_path: " ++ X ++ " -->" ++ post) = some X := by
  unfold extractFilePath
  rw [findCommentPath_decomp pre X post hdot hpre hX]
  simp [nonEmptyStr, hne]

theorem extractFilePath_comment_marker_priority_witness :
    extractFilePath ⟨some "other.txt", some "audio"⟩
        ("" ++ "<!-- file_path: " ++ "videos/x.mp4" ++ " -->" ++ "\nArquivo: audio/a.mp3")
      = some "videos/x.mp4" :=
  extractFilePath_comment_marker_priority ⟨some "other.txt", some "audio"⟩
    "" "videos/x.mp4" "\nArquivo: audio/a.mp3"
    (by decide) (by decide) (by decide) (by decide)

/-- C3 fails on the code: with no match in the text and no explicit
`file_path`, a declared primary media type of `mixed` does *not* produce a
default sample file — the `defaultFiles` table has no `mixed` entry, so the
extractor returns `null` although a primary media type is declared. -/
theorem extractFilePath_mixed_default_counterexample :
    extractFilePath ⟨none, some "mixed"⟩ "" = none ∧ defaultFileFor "mixed" = none := by
  constructor <;> rfl

/-- C3 (amended): when text and `file_path` yield nothing, a declared
primary media type whose lowercase form is one of video/audio/image/text/
exercises returns that kind's fixed default sample file; `mixed` (or any
other value) and an absent primary media type return `null`. -/
theorem extractFilePath_default_fallback_amended (d : AnalyzeData) (text : String)
    (h1 : nonEmptyStr (findCommentPath text) = none)
    (h2 : nonEmptyStr (findLabeledLine text) = none)
    (h3 : nonEmptyStr (findMediaPattern text) = none)
    (h4 : d.file_path = none) :
    extractFilePath d text =
      match d.primary_media_type with
      | none => none
      | some t =>
        if asciiLower t = "video" then some "videos/Dica do professor.mp4"
        else if asciiLower t = "audio" then some "audio/Dica do professor.mp3"
        else if asciiLower t = "image" then some "images/Infografico-1.jpg"
        else if asciiLower t = "text" then some "text/Apresentação.txt"
        else if asciiLower t = "exercises" then some "text/Exercícios.txt"
        else none := by
  unfold extractFilePath
  rw [h1, h2, h3, h4]
  cases hp : d.primary_media_type with
  | none => rfl
  | some t =>
    by_cases ht : t = ""
    · subst ht; rfl
    · simp [nonEmptyStr, ht, defaultFileFor]

theorem extractFilePath_default_fallback_amended_witness :
    extractFilePath ⟨none, some "video"⟩ "Sem arquivos aqui."
      = some "videos/Dica do professor.mp4" :=
  (extractFilePath_default_fallback_amended ⟨none, some "video"⟩ "Sem arquivos aqui."
      (by decide) (by decide) (by decide) rfl).trans (by decide)

/-! ### Theorems about the Exercise Parser -/

theorem string_ne_empty_append_left {a : String} (t : String) (h : a ≠ "") :
    a ++ t ≠ "" := by
  rw [Ne, String.ext_iff, String.data_append, List.append_eq_nil]
  rintro ⟨h1, -⟩
  exact h (String.ext_iff.mpr h1)

theorem networkMsg_ne_noExercisesMsg (status : Nat) :
    networkMsg status ≠ noExercisesMsg := by
  intro h
  have hE : (networkMsg status).data.head? = some 'E' := by
    show ((("Erro ao carregar exercícios (" : String) ++ toString status
        ++ ")").data).head? = some 'E'
    rw [String.data_append, String.data_append]
    rfl
  rw [h] at hE
  exact absurd hE (by decide)

/-- C4 fails on the code: for the fetched content `"[]"` the JSON strategy
yields no exercise, yet no fallback to the plain-text parser happens and no
"no exercises found" condition is raised — the empty array is accepted as an
empty exercise list. -/
theorem exercise_parser_empty_json_counterexample :
    fetchExercisesResult (.ok "[]") = .ok [] ∧ parseTextExercises "[]" = [] := by
  constructor <;> rfl

/-- C4 (amended): the plain-text fallback runs exactly when JSON parsing
fails or the parsed JSON yields no usable exercises container (non-array,
no `exercises` array, no question-bearing member values — including `null`,
whose member access throws inside the same `try`); a parsed empty array (or
empty `exercises` array) is accepted as an empty list without fallback and
without error; when the fallback also finds nothing the operation fails
with the "no exercises found" message, which differs from every
network-failure message. -/
theorem exercise_parser_fallback_amended (content : String) (status : Nat) :
    (parseJson content = none →
      (parseTextExercises content = [] ∧
        fetchExercisesResult (.ok content) = .error noExercisesMsg) ∨
      fetchExercisesResult (.ok content) = .ok (parseTextExercises content))
    ∧ (∀ j, parseJson content = some j → jsonBranch j = none →
      (parseTextExercises content = [] ∧
        fetchExercisesResult (.ok content) = .error noExercisesMsg) ∨
      fetchExercisesResult (.ok content) = .ok (parseTextExercises content))
    ∧ fetchExercisesResult (.error status) = .error (networkMsg status)
    ∧ networkMsg status ≠ noExercisesMsg := by
  have hcases : (parseTextExercises content = [] ∧
        textFallback content = .error noExercisesMsg)
      ∨ textFallback content = .ok (parseTextExercises content) := by
    unfold textFallback
    by_cases ht : parseTextExercises content = []
    · exact Or.inl ⟨ht, by simp [ht]⟩
    · exact Or.inr (by simp [List.isEmpty_iff, ht])
  refine ⟨?_, ?_, rfl, networkMsg_ne_noExercisesMsg status⟩
  · intro h
    have hfe : fetchExercisesResult (.ok content) = textFallback content := by
      show processExercisesContent content = _
      unfold processExercisesContent
      rw [h]
    rcases hcases with ⟨h1, h2⟩ | h2
    · exact Or.inl ⟨h1, by rw [hfe, h2]⟩
    · exact Or.inr (by rw [hfe, h2])
  · intro j hj hb
    have hfe : fetchExercisesResult (.ok content) = textFallback content := by
      show processExercisesContent content = _
      unfold processExercisesContent
      rw [hj]
      show (match jsonBranch j with
            | some exs => Except.ok exs
            | none => textFallback content) = _
      rw [hb]
    rcases hcases with ⟨h1, h2⟩ | h2
    · exact Or.inl ⟨h1, by rw [hfe, h2]⟩
    · exact Or.inr (by rw [hfe, h2])

theorem exercise_parser_fallback_amended_witness :
    fetchExercisesResult (.ok "nada aqui") = .error noExercisesMsg
    ∧ networkMsg 404 ≠ noExercisesMsg := by
  have h := exercise_parser_fallback_amended "nada aqui" 404
  refine ⟨?_, h.2.2.2⟩
  rcases h.1 rfl with ⟨-, h2⟩ | h2
  · exact h2
  · have h3 : (Except.error noExercisesMsg : Except String (List Exercise))
        = Except.ok (parseTextExercises "nada aqui") :=
      ((rfl : fetchExercisesResult (.ok "nada aqui")
          = Except.error noExercisesMsg).symm).trans h2
    exact Except.noConfusion h3

theorem flushEx_question (e : Exercise) (col : Bool) (opts : List String) :
    (flushEx e col opts).question = e.question := by
  unfold flushEx
  split <;> rfl

theorem data_prefix_append {p q : String} (x : String) (h : p.data <+: q.data) :
    p.data <+: (q ++ x).data := by
  rw [String.data_append]
  exact h.trans ⟨x.data, rfl⟩

/-- The trimmed question-line captures of a list of lines, in order. -/
def qstartsL (lines : List String) : List String :=
  lines.filterMap (fun l => (matchQuestionLine (trimStr l)).map trimStr)

theorem qstartsL_cons_none {l : String} (lines : List String)
    (h : matchQuestionLine (trimStr l) = none) :
    qstartsL (l :: lines) = qstartsL lines := by
  simp [qstartsL, List.filterMap_cons, h]

theorem qstartsL_cons_some {l q : String} (lines : List String)
    (h : matchQuestionLine (trimStr l) = some q) :
    qstartsL (l :: lines) = trimStr q :: qstartsL lines := by
  simp [qstartsL, List.filterMap_cons, h]

/-- Invariant of the line loop while an exercise is pending: its question
only ever grows, so any recorded start stays a prefix, and each later
question line contributes its own start in order. -/
theorem parseLoop_forall2_some (lines : List String) :
    ∀ (e : Exercise) (col : Bool) (opts : List String) (s₀ : String),
    (∀ l ∈ lines, ∀ q, matchQuestionLine (trimStr l) = some q → trimStr q ≠ "") →
    e.question ≠ "" → s₀.data <+: e.question.data →
    List.Forall₂ (fun s ex => s.data <+: ex.question.data)
      (s₀ :: qstartsL lines) (parseLoop lines (some e) col opts) := by
  induction lines with
  | nil =>
    intro e col opts s₀ _ hne hp
    simp only [parseLoop, qstartsL, List.filterMap_nil, if_pos hne]
    exact List.forall₂_cons.mpr ⟨by rw [flushEx_question]; exact hp, List.Forall₂.nil⟩
  | cons l rest ih =>
    intro e col opts s₀ hq hne hp
    have hqrest : ∀ l' ∈ rest, ∀ q, matchQuestionLine (trimStr l') = some q →
        trimStr q ≠ "" :=
      fun l' hl' => hq l' (List.mem_cons_of_mem l hl')
    by_cases hline : trimStr l = ""
    · rw [qstartsL_cons_none rest (by rw [hline]; rfl)]
      simp only [parseLoop, hline, if_pos rfl]
      exact ih e col opts s₀ hqrest hne hp
    · simp only [parseLoop, if_neg hline]
      cases hm : matchQuestionLine (trimStr l) with
      | some q =>
        rw [qstartsL_cons_some rest hm]
        have hqne : trimStr q ≠ "" := hq l (List.mem_cons_self l rest) q hm
        simp only [if_pos hne]
        refine List.forall₂_cons.mpr ⟨by rw [flushEx_question]; exact hp, ?_⟩
        exact ih (newEx q) false [] (trimStr q) hqrest hqne (by rfl)
      | none =>
        rw [qstartsL_cons_none rest hm]
        cases ho : matchOptionLine (trimStr l) with
        | some o => exact ih e true _ s₀ hqrest hne hp
        | none =>
          cases ha : matchLabeledValue answerLabels (trimStr l) with
          | some a => exact ih _ col opts s₀ hqrest hne hp
          | none =>
            cases hx : matchLabeledValue explLabels (trimStr l) with
            | some x => exact ih _ col opts s₀ hqrest hne hp
            | none =>
              cases col with
              | true =>
                rw [if_pos rfl]
                exact ih e true opts s₀ hqrest hne hp
              | false =>
                rw [if_neg (by simp)]
                exact ih _ false opts s₀ hqrest
                  (string_ne_empty_append_left _
                    (string_ne_empty_append_left " " hne))
                  (data_prefix_append _ (data_prefix_append " " hp))

/-- Before the first question line the loop emits nothing; from the first
question line on, `parseLoop_forall2_some` applies. -/
theorem parseLoop_forall2_none (lines : List String) :
    ∀ (col : Bool) (opts : List String),
    (∀ l ∈ lines, ∀ q, matchQuestionLine (trimStr l) = some q → trimStr q ≠ "") →
    List.Forall₂ (fun s ex => s.data <+: ex.question.data)
      (qstartsL lines) (parseLoop lines none col opts) := by
  induction lines with
  | nil => intro col opts _; exact List.Forall₂.nil
  | cons l rest ih =>
    intro col opts hq
    have hqrest : ∀ l' ∈ rest, ∀ q, matchQuestionLine (trimStr l') = some q →
        trimStr q ≠ "" :=
      fun l' hl' => hq l' (List.mem_cons_of_mem l hl')
    by_cases hline : trimStr l = ""
    · rw [qstartsL_cons_none rest (by rw [hline]; rfl)]
      simp only [parseLoop, hline, if_pos rfl]
      exact ih col opts hqrest
    · simp only [parseLoop, if_neg hline]
      cases hm : matchQuestionLine (trimStr l) with
      | some q =>
        rw [qstartsL_cons_some rest hm]
        exact parseLoop_forall2_some rest (newEx q) col opts (trimStr q) hqrest
          (hq l (List.mem_cons_self l rest) q hm) (by rfl)
      | none =>
        rw [qstartsL_cons_none rest hm]
        exact ih col opts hqrest

/-- C8: the plain-text Exercise Parser turns the sample input into exactly
one record with question "What is X?", options ["foo","bar"], answer "a";
and in general (for texts whose numbered lines have non-empty captures) the
returned list corresponds one-to-one, in source order, to the numbered
question lines: the i-th record's question starts with the i-th numbered
line's trimmed capture. -/
theorem parseTextExercises_example_and_order :
    parseTextExercises "1. What is X?\na) foo\nb) bar\nResposta: a"
      = [{ question := "What is X?", options := some ["foo", "bar"],
           answer := some "a", explanation := none }]
    ∧ ∀ text : String, "" ∉ questionStarts text →
        List.Forall₂ (fun s ex => s.data <+: ex.question.data)
          (questionStarts text) (parseTextExercises text) := by
  constructor
  · rfl
  · intro text hnz
    have hq : ∀ l ∈ splitOnStr "\n" text, ∀ q,
        matchQuestionLine (trimStr l) = some q → trimStr q ≠ "" := by
      intro l hl q hm hq0
      apply hnz
      rw [← hq0]
      exact List.mem_filterMap.mpr ⟨l, hl, by rw [hm]; rfl⟩
    exact parseLoop_forall2_none (splitOnStr "\n" text) false [] hq

theorem parseTextExercises_example_and_order_witness :
    List.Forall₂ (fun s ex => s.data <+: ex.question.data)
      (questionStarts "1. Q um?\nmais texto\n2. Q dois?\nResposta: b")
      (parseTextExercises "1. Q um?\nmais texto\n2. Q dois?\nResposta: b") :=
  (parseTextExercises_example_and_order).2
    "1. Q um?\nmais texto\n2. Q dois?\nResposta: b" (by decide)

/-! ### Theorems about the Interactive Assessment Flow -/

theorem applyAnswer_calls (q : AQuestion) (a : String) (s : AState) :
    (applyAnswer q a s).onCompleteCalls = s.onCompleteCalls := by
  simp only [applyAnswer]
  split
  · split <;> split <;> rfl
  · split <;> rfl

theorem applyAnswer_complete (q : AQuestion) (a : String) (s : AState) :
    (applyAnswer q a s).assessmentComplete = s.assessmentComplete := by
  simp only [applyAnswer]
  split
  · split <;> split <;> rfl
  · split <;> rfl

theorem gapStep_calls (oracle : String → String) (stale st : AState) (q : AQuestion) :
    (gapStep oracle stale st q).onCompleteCalls = st.onCompleteCalls := by
  simp only [gapStep]
  split
  · split <;> rfl
  · rfl

theorem foldl_gapStep_calls (oracle : String → String) (stale : AState)
    (qs : List AQuestion) : ∀ acc : AState,
    (qs.foldl (gapStep oracle stale) acc).onCompleteCalls = acc.onCompleteCalls := by
  induction qs with
  | nil => intro acc; rfl
  | cons q rest ih =>
    intro acc
    rw [List.foldl_cons, ih, gapStep_calls]

theorem completeAssessment_calls (oracle : String → String) (fq : List AQuestion)
    (acc stale : AState) :
    (completeAssessment oracle fq acc stale).onCompleteCalls
      = acc.onCompleteCalls
        ++ [{ userId := stale.userId, knowledgeGaps := stale.knowledgeGaps,
              preferredFormat := stale.preferredFormat, level := stale.userLevel }] := by
  simp only [completeAssessment]
  rw [foldl_gapStep_calls]

theorem completeAssessment_complete (oracle : String → String) (fq : List AQuestion)
    (acc stale : AState) :
    (completeAssessment oracle fq acc stale).assessmentComplete = true := rfl

/-- Anatomy of one answer event from a not-yet-complete state: either the
step does not complete the assessment and the callback log is unchanged, or
it completes it and the log grows by exactly one entry. -/
theorem handleAnswer_cases (oracle : String → String) (a : String) (s : AState)
    (hs : s.assessmentComplete = false) :
    ((handleAnswer oracle a s).assessmentComplete = false ∧
      (handleAnswer oracle a s).onCompleteCalls = s.onCompleteCalls)
    ∨ ((handleAnswer oracle a s).assessmentComplete = true ∧
      (handleAnswer oracle a s).onCompleteCalls.length
        = s.onCompleteCalls.length + 1) := by
  cases hq : s.currentQuestion with
  | none =>
    simp only [handleAnswer, hs, hq, Bool.false_eq_true, if_false]
    exact Or.inl ⟨by simp [hs], by simp⟩
  | some q =>
    simp only [handleAnswer, hs, hq, Bool.false_eq_true, if_false]
    by_cases hv : answerValid q a = true
    · rw [if_pos hv]
      by_cases hn : (s.questions.findIdx (fun x => x.id = q.id)) + 1 < s.questions.length
      · rw [if_pos hn]
        exact Or.inl ⟨(applyAnswer_complete q a s).trans hs, applyAnswer_calls q a s⟩
      · rw [if_neg hn]
        refine Or.inr ⟨completeAssessment_complete _ _ _ _, ?_⟩
        rw [completeAssessment_calls, applyAnswer_calls]
        simp
    · rw [if_neg hv]
      exact Or.inl ⟨hs, rfl⟩

set_option maxHeartbeats 4000000 in
/-- C2 fails on the code: a fully completed run followed by one press of
the completion screen's continue button observes the completion callback
twice. -/
theorem onComplete_twice_counterexample :
    ((runA (fun _ => "ok") (initAState "u1")
        [AEvent.answer "iniciante", AEvent.answer "iniciante",
         AEvent.answer "iniciante", AEvent.answer "iniciante",
         AEvent.answer "iniciante", AEvent.answer "texto",
         AEvent.answer "uma resposta", AEvent.answer "outra resposta",
         AEvent.continueClick]).onCompleteCalls).length = 2 := by
  rfl

/-- C2 (amended): from a not-yet-complete state, an answer event fires the
completion callback exactly when it completes the assessment, and then
exactly once; no event before completion fires it; however the completion
screen's continue button invokes the same callback again on every press. -/
theorem onComplete_once_at_completion_amended (oracle : String → String)
    (s : AState) (a : String) :
    (s.assessmentComplete = false →
      (handleAnswer oracle a s).assessmentComplete = false →
      (handleAnswer oracle a s).onCompleteCalls = s.onCompleteCalls)
    ∧ (s.assessmentComplete = false →
      (handleAnswer oracle a s).assessmentComplete = true →
      (handleAnswer oracle a s).onCompleteCalls.length
        = s.onCompleteCalls.length + 1)
    ∧ (s.assessmentComplete = true → handleAnswer oracle a s = s)
    ∧ (s.assessmentComplete = false → clickContinue s = s)
    ∧ (s.assessmentComplete = true →
      (clickContinue s).onCompleteCalls.length = s.onCompleteCalls.length + 1) := by
  refine ⟨?_, ?_, ?_, ?_, ?_⟩
  · intro hs hr
    rcases handleAnswer_cases oracle a s hs with ⟨-, h2⟩ | ⟨h1, -⟩
    · exact h2
    · rw [hr] at h1
      exact absurd h1 (by decide)
  · intro hs hr
    rcases handleAnswer_cases oracle a s hs with ⟨h1, -⟩ | ⟨-, h2⟩
    · rw [hr] at h1
      exact absurd h1 (by decide)
    · exact h2
  · intro hs
    simp [handleAnswer, hs]
  · intro hs
    simp [clickContinue, hs]
  · intro hs
    simp [clickContinue, hs]

theorem onComplete_once_at_completion_amended_witness :
    (handleAnswer (fun _ => "ok") "iniciante" (initAState "u1")).onCompleteCalls
      = (initAState "u1").onCompleteCalls
    ∧ clickContinue (initAState "u1") = initAState "u1" := by
  have h := onComplete_once_at_completion_amended (fun _ => "ok") (initAState "u1")
    "iniciante"
  exact ⟨h.1 rfl rfl, h.2.2.2.1 rfl⟩

/-- `handleAnswer` once the three guards are settled. -/
theorem handleAnswer_guard_true {oracle : String → String} {a : String} {s : AState}
    {q : AQuestion} (hc : s.assessmentComplete = false)
    (hq : s.currentQuestion = some q) (hv : answerValid q a = true) :
    handleAnswer oracle a s =
      (if (s.questions.findIdx (fun x => x.id = q.id)) + 1 < s.questions.length then
        { applyAnswer q a s with
            currentQuestion := s.questions.get?
              ((s.questions.findIdx (fun x => x.id = q.id)) + 1) }
      else
        completeAssessment oracle (applyAnswer q a s).questions (applyAnswer q a s) s) := by
  simp only [handleAnswer, hc, hq, hv, Bool.false_eq_true, if_false, if_true]

theorem gapStep_stale_mem (oracle : String → String) (stale : AState) (q : AQuestion)
    {st : AState} (h : stale.knowledgeGaps.contains (gapTopicOf q.text) = true) :
    gapStep oracle stale st q = st := by
  simp only [gapStep, h, ite_self, if_true]

set_option maxHeartbeats 4000000 in
/-- C6: answering every topic-level question with `iniciante` (and then any
valid format choice and any two valid open-ended answers, whatever the
backend analysis returns) yields a knowledgeGaps list equal to the full
fixed topic list, in original topic order — both in the final state and in
the completion callback's payload. -/
theorem assessment_all_beginner_gaps (uid fmt o1 o2 : String)
    (oracle : String → String) (hf : fmt ∈ formatOptions)
    (h1 : (trimStr o1).length ≥ 5) (h2 : (trimStr o2).length ≥ 5) :
    (runA oracle (initAState uid)
      [.answer "iniciante", .answer "iniciante", .answer "iniciante",
       .answer "iniciante", .answer "iniciante", .answer fmt,
       .answer o1, .answer o2]).knowledgeGaps = topics
    ∧ (runA oracle (initAState uid)
      [.answer "iniciante", .answer "iniciante", .answer "iniciante",
       .answer "iniciante", .answer "iniciante", .answer fmt,
       .answer o1, .answer o2]).onCompleteCalls
      = [{ userId := uid, knowledgeGaps := topics, preferredFormat := fmt,
           level := "iniciante" }] := by
  have hv6 : answerValid fmtQuestion fmt = true := by
    show formatOptions.contains fmt = true
    exact List.elem_iff.mpr hf
  have hv7 : answerValid openQ1 o1 = true := by
    show decide ((trimStr o1).length ≥ 5) = true
    exact decide_eq_true h1
  have hv8 : answerValid openQ2 o2 = true := by
    show decide ((trimStr o2).length ≥ 5) = true
    exact decide_eq_true h2
  have ho1 : (o1 != "") = true := bne_iff_ne.mpr (by
    intro he; rw [he] at h1; exact absurd h1 (by decide))
  have ho2 : (o2 != "") = true := bne_iff_ne.mpr (by
    intro he; rw [he] at h2; exact absurd h2 (by decide))
  have h5 : runA oracle (initAState uid)
      [.answer "iniciante", .answer "iniciante", .answer "iniciante",
       .answer "iniciante", .answer "iniciante"] = beginnerS5 uid := rfl
  have h6 : handleAnswer oracle fmt (beginnerS5 uid) = beginnerS6 uid fmt :=
    (handleAnswer_guard_true rfl rfl hv6).trans (by rfl)
  have h7 : handleAnswer oracle o1 (beginnerS6 uid fmt) = beginnerS7 uid fmt o1 :=
    (handleAnswer_guard_true rfl rfl hv7).trans (by rfl)
  have h8 : handleAnswer oracle o2 (beginnerS7 uid fmt o1)
      = completeAssessment oracle (beginnerQs (some fmt) (some o1) (some o2))
          { beginnerS7 uid fmt o1 with
              questions := beginnerQs (some fmt) (some o1) (some o2) }
          (beginnerS7 uid fmt o1) :=
    (handleAnswer_guard_true rfl rfl hv8).trans (by rfl)
  have hfilter : (beginnerQs (some fmt) (some o1) (some o2)).filter
      (fun q => q.isOpenEnded && truthyResp q.userResponse)
      = [{ openQ1 with userResponse := some o1 },
         { openQ2 with userResponse := some o2 }] := by
    simp only [beginnerQs, beginnerTopicQs, topicQuestion, fmtQuestion, openQ1,
      openQ2, List.cons_append, List.nil_append, List.filter_cons, List.filter_nil,
      truthyResp, ho1, ho2, Bool.false_and, Bool.true_and, Bool.false_eq_true,
      if_false, if_true]
  have hmem7 : (beginnerS7 uid fmt o1).knowledgeGaps.contains
      (gapTopicOf ({ openQ1 with userResponse := some o1 } : AQuestion).text)
      = true := by
    show topics.contains (gapTopicOf openQ1.text) = true
    decide
  have hmem8 : (beginnerS7 uid fmt o1).knowledgeGaps.contains
      (gapTopicOf ({ openQ2 with userResponse := some o2 } : AQuestion).text)
      = true := by
    show topics.contains (gapTopicOf openQ2.text) = true
    decide
  have hrun : runA oracle (initAState uid)
      [.answer "iniciante", .answer "iniciante", .answer "iniciante",
       .answer "iniciante", .answer "iniciante", .answer fmt,
       .answer o1, .answer o2] = beginnerFinal uid fmt o1 o2 := by
    have hsplit : runA oracle (initAState uid)
        [.answer "iniciante", .answer "iniciante", .answer "iniciante",
         .answer "iniciante", .answer "iniciante", .answer fmt,
         .answer o1, .answer o2]
        = runA oracle (runA oracle (initAState uid)
            [.answer "iniciante", .answer "iniciante", .answer "iniciante",
             .answer "iniciante", .answer "iniciante"])
            [.answer fmt, .answer o1, .answer o2] := by
      show List.foldl (stepA oracle) (initAState uid) _
          = List.foldl (stepA oracle)
              (List.foldl (stepA oracle) (initAState uid) _) _
      rw [← List.foldl_append]
      rfl
    rw [hsplit, h5]
    show List.foldl (stepA oracle) (beginnerS5 uid)
        [.answer fmt, .answer o1, .answer o2] = _
    simp only [List.foldl_cons, List.foldl_nil, stepA]
    rw [h6, h7, h8]
    simp only [completeAssessment]
    rw [hfilter, List.foldl_cons,
      gapStep_stale_mem oracle (beginnerS7 uid fmt o1) _ hmem7,
      List.foldl_cons,
      gapStep_stale_mem oracle (beginnerS7 uid fmt o1) _ hmem8,
      List.foldl_nil]
    rfl
  rw [hrun]
  exact ⟨rfl, rfl⟩

set_option maxHeartbeats 4000000 in
theorem assessment_all_beginner_gaps_witness :
    (runA (fun _ => "ok") (initAState "u1")
      [.answer "iniciante", .answer "iniciante", .answer "iniciante",
       .answer "iniciante", .answer "iniciante", .answer "texto",
       .answer "resposta um", .answer "resposta dois"]).knowledgeGaps = topics :=
  (assessment_all_beginner_gaps "u1" "texto" "resposta um" "resposta dois"
    (fun _ => "ok") (by decide) (by decide) (by decide)).1

end AEduc
